import Mathlib

/-!
Verification of the PCLTTM mesh-compression core (valence-driven conquest,
Alliez–Desbrun).  The Python sources `src/PCLTTM/mesh.py`,
`src/PCLTTM/retriangulator.py`, `src/PCLTTM/data_structures/patch.py` and
`src/PCLTTM/__init__.py` are shallowly embedded below: Python dicts become
insertion-ordered association lists with replace-or-append update, Python sets
of vertices become duplicate-free lists with add-if-absent, vertices are an
abstract type `V` with decidable equality (a Python `Vertex` is identified by
its coordinate triple; no claim depends on coordinate arithmetic), and code
that raises becomes `Except`.
-/

namespace PCLTTM

/-! ## Python dict / set primitives -/

/-- Python `d.get(k)` / `k in d` lookup on an association list (first match). -/
def dget? {K A : Type} [DecidableEq K] (d : List (K × A)) (k : K) : Option A :=
  (d.find? (fun p => p.1 = k)).map (·.2)

/-- Python `d[k] = a`: replace the value of an existing key in place,
otherwise append the new binding (insertion order). -/
def dset {K A : Type} [DecidableEq K] (d : List (K × A)) (k : K) (a : A) : List (K × A) :=
  if d.any (fun p => p.1 = k) then d.map (fun p => if p.1 = k then (k, a) else p)
  else d ++ [(k, a)]

/-- Python `del d[k]` (also covers the guarded `if k in d: del d[k]` pattern:
deleting an absent key is the identity here). -/
def ddel {K A : Type} [DecidableEq K] (d : List (K × A)) (k : K) : List (K × A) :=
  d.filter (fun p => ¬ (p.1 = k))

/-- Python `d.keys()`. -/
def dkeys {K A : Type} (d : List (K × A)) : List K :=
  d.map (·.1)

/-- Python `k in d`. -/
def keyMem {K A : Type} [DecidableEq K] (d : List (K × A)) (k : K) : Bool :=
  d.any (fun p => p.1 = k)

/-- Python `s.add(v)` for a set represented as a duplicate-free list. -/
def sadd {A : Type} [DecidableEq A] (l : List A) (a : A) : List A :=
  if a ∈ l then l else l ++ [a]

/-- Python `s.discard(v)`. -/
def sdiscard {A : Type} [DecidableEq A] (l : List A) (a : A) : List A :=
  l.filter (fun x => ¬ (x = a))

theorem dget?_of_not_key {K A : Type} [DecidableEq K] (d : List (K × A)) (k : K)
    (h : ∀ p ∈ d, p.1 ≠ k) : dget? d k = none := by
  induction d with
  | nil => rfl
  | cons p t ih =>
    have hp : p.1 ≠ k := h p (List.mem_cons_self p t)
    simp only [dget?, List.find?]
    rw [show (decide (p.1 = k)) = false by simp [hp]]
    exact ih (fun q hq => h q (List.mem_cons_of_mem p hq))

theorem dget?_append_single {K A : Type} [DecidableEq K] (d : List (K × A)) (k q : K) (a : A)
    (h : ∀ p ∈ d, p.1 ≠ k) :
    dget? (d ++ [(k, a)]) q = if q = k then some a else dget? d q := by
  induction d with
  | nil =>
    by_cases hqk : q = k
    · simp [dget?, List.find?, hqk]
    · simp only [List.nil_append, dget?, List.find?, if_neg hqk]
      rw [show (decide (k = q)) = false by simp [Ne.symm hqk]]
  | cons p t ih =>
    have hp : p.1 ≠ k := h p (List.mem_cons_self p t)
    have ht : ∀ q ∈ t, q.1 ≠ k := fun q hq => h q (List.mem_cons_of_mem p hq)
    by_cases hpq : p.1 = q
    · have hqk : ¬ q = k := fun hh => hp (hpq.trans hh)
      simp [dget?, List.find?, hpq, hqk]
    · simp only [List.cons_append, dget?, List.find?]
      rw [show (decide (p.1 = q)) = false by simp [hpq]]
      exact ih ht

theorem dget?_map_replace_ne {K A : Type} [DecidableEq K] (d : List (K × A)) (k q : K) (a : A)
    (hqk : q ≠ k) :
    dget? (d.map (fun p => if p.1 = k then (k, a) else p)) q = dget? d q := by
  induction d with
  | nil => rfl
  | cons p t ih =>
    by_cases hpk : p.1 = k
    · simp only [List.map_cons, if_pos hpk, dget?, List.find?]
      rw [show (decide (k = q)) = false by simp [Ne.symm hqk]]
      rw [show (decide (p.1 = q)) = false by simp [hpk ▸ (Ne.symm hqk : k ≠ q)]]
      exact ih
    · simp only [List.map_cons, if_neg hpk, dget?, List.find?]
      by_cases hpq : p.1 = q
      · simp [hpq]
      · rw [show (decide (p.1 = q)) = false by simp [hpq]]
        exact ih

theorem dget?_map_replace_key {K A : Type} [DecidableEq K] (d : List (K × A)) (k : K) (a : A)
    (h : ∃ p ∈ d, p.1 = k) :
    dget? (d.map (fun p => if p.1 = k then (k, a) else p)) k = some a := by
  induction d with
  | nil => simp at h
  | cons p t ih =>
    by_cases hpk : p.1 = k
    · simp [dget?, List.find?, hpk]
    · simp only [List.map_cons, if_neg hpk, dget?, List.find?]
      rw [show (decide (p.1 = k)) = false by simp [hpk]]
      rcases h with ⟨q, hq, hqk⟩
      rcases List.mem_cons.mp hq with rfl | hq
      · exact absurd hqk hpk
      · exact ih ⟨q, hq, hqk⟩

/-- The fundamental lookup/update law: `dset` behaves as a pointwise map update. -/
theorem dget?_dset {K A : Type} [DecidableEq K] (d : List (K × A)) (k q : K) (a : A) :
    dget? (dset d k a) q = if q = k then some a else dget? d q := by
  unfold dset
  by_cases hany : d.any (fun p => p.1 = k)
  · rw [if_pos hany]
    rcases List.any_eq_true.mp hany with ⟨p, hp, hpk⟩
    by_cases hqk : q = k
    · subst hqk
      rw [if_pos rfl]
      exact dget?_map_replace_key d q a ⟨p, hp, of_decide_eq_true hpk⟩
    · rw [if_neg hqk]
      exact dget?_map_replace_ne d k q a hqk
  · rw [if_neg hany]
    have h : ∀ p ∈ d, p.1 ≠ k := by
      intro p hp hc
      exact hany (List.any_eq_true.mpr ⟨p, hp, decide_eq_true hc⟩)
    exact dget?_append_single d k q a h

theorem dget?_ddel {K A : Type} [DecidableEq K] (d : List (K × A)) (k q : K) :
    dget? (ddel d k) q = if q = k then none else dget? d q := by
  induction d with
  | nil => by_cases hqk : q = k <;> simp [ddel, dget?, hqk]
  | cons p t ih =>
    by_cases hpk : p.1 = k
    · by_cases hqk : q = k
      · subst hqk
        simp only [ddel, List.filter]
        rw [show (decide (¬ (p.1 = q))) = false by simp [hpk]]
        simpa [ddel] using ih
      · simp only [ddel, List.filter]
        rw [show (decide (¬ (p.1 = k))) = false by simp [hpk]]
        simp only [dget?, List.find?]
        rw [show (decide (p.1 = q)) = false by simp [hpk, Ne.symm hqk]]
        simpa [ddel, dget?] using ih
    · simp only [ddel, List.filter]
      rw [show (decide (¬ (p.1 = k))) = true by simp [hpk]]
      by_cases hpq : p.1 = q
      · have hqk : ¬ q = k := fun h => hpk (hpq.trans h)
        simp [dget?, List.find?, hpq, hqk]
      · simp only [dget?, List.find?]
        rw [show (decide (p.1 = q)) = false by simp [hpq]]
        simpa [ddel, dget?] using ih

theorem dkeys_dset_of_key {K A : Type} [DecidableEq K] (d : List (K × A)) (k : K) (a : A)
    (h : keyMem d k = true) : dkeys (dset d k a) = dkeys d := by
  unfold dset
  unfold keyMem at h
  rw [if_pos h]
  unfold dkeys
  rw [List.map_map]
  apply List.map_congr_left
  intro p _
  by_cases hpk : p.1 = k <;> simp [hpk]

theorem keyMem_iff_dget? {K A : Type} [DecidableEq K] (d : List (K × A)) (k : K) :
    keyMem d k = true ↔ (dget? d k).isSome := by
  induction d with
  | nil => simp [keyMem, dget?]
  | cons p t ih =>
    by_cases hpk : p.1 = k
    · simp [keyMem, dget?, List.find?, hpk]
    · simp only [keyMem, List.any_cons, dget?, List.find?]
      rw [show (decide (p.1 = k)) = false by simp [hpk]]
      simp only [Bool.false_or]
      exact (show keyMem t k = true ↔ (dget? t k).isSome from ih)

theorem sdiscard_length_ge {A : Type} [DecidableEq A] (l : List A) (a : A) (h : l.Nodup) :
    l.length - 1 ≤ (sdiscard l a).length := by
  induction l with
  | nil => simp [sdiscard]
  | cons x t ih =>
    rcases List.nodup_cons.mp h with ⟨hx, ht⟩
    by_cases hxa : x = a
    · subst hxa
      have heq : sdiscard t x = t := by
        apply List.filter_eq_self.mpr
        intro b hb
        have hbx : ¬ b = x := fun hbx => hx (hbx ▸ hb)
        simp [hbx]
      rw [show sdiscard (x :: t) x = t by
        simp only [sdiscard, List.filter_cons] at heq ⊢
        rw [if_neg (by simp)]
        exact heq]
      simp
    · rw [show sdiscard (x :: t) a = x :: sdiscard t a by
        simp [sdiscard, List.filter_cons, hxa]]
      have := ih ht
      simp only [List.length_cons]
      omega

/-! ## Enumerations (`data_structures/constants.py`) -/

/-- `StateFlag`: states during the conquest process. -/
inductive StateFlag : Type
  | Free
  | Conquered
  | ToRemove
deriving DecidableEq, Repr

/-- `RetriangulationTag`: per-vertex tags for deterministic retriangulation. -/
inductive RetriangulationTag : Type
  | Default
  | Plus
  | Minus
deriving DecidableEq, Repr

/-! ## `MeshTopology.State` (`mesh.py`)

`vertex_connections : Hash(Vertex) -> Set(Vertex)` and
`orientations : Hash(Edge) -> (left apex, right apex)`.  Orientation keys are
pairs of `Option V` because the Python code can build dict keys containing
`None` (e.g. `set_orientation` writes `(toV, third_vertex)` even when
`third_vertex` is `None`); ordinary edges are keyed `(some a, some b)`. -/

structure State (V : Type) where
  vertex_connections : List (V × List V)
  orientations : List ((Option V × Option V) × (Option V × Option V))
deriving DecidableEq, Repr

variable {V : Type} [DecidableEq V]

/-- The state of a freshly constructed `MeshTopology()`. -/
def State.empty (V : Type) : State V := ⟨[], []⟩

/-- `MeshTopology.add_edge`: add an undirected edge; no-op returning `False`
if either endpoint is unknown. -/
def add_edge (s : State V) (fromV toV : V) : Bool × State V :=
  if ¬ (keyMem s.vertex_connections fromV = true ∧ keyMem s.vertex_connections toV = true) then
    (false, s)
  else
    let d := dset s.vertex_connections fromV
      (sadd ((dget? s.vertex_connections fromV).getD []) toV)
    let d := dset d toV (sadd ((dget? d toV).getD []) fromV)
    (true, { s with vertex_connections := d })

/-- `MeshTopology.add_vertex`: insert an isolated vertex (no-op if present),
then connect it to each vertex of `connected_to` via `add_edge`. -/
def add_vertex (s : State V) (vertex : V) (connected_to : List V) : State V :=
  if keyMem s.vertex_connections vertex then s
  else
    let s := { s with vertex_connections := dset s.vertex_connections vertex [] }
    connected_to.foldl (fun st conn => (add_edge st vertex conn).2) s

/-- `MeshTopology.can_remove_vertex`: true iff the vertex is known and every
neighbor currently has valence > 3.  (The Python line
`len(vertex_connections[neighbor]) > 3` would raise `KeyError` on a dangling
neighbor; well-formed states — `WFvc` below — have no dangling neighbors, and
there the `getD []` used here agrees with the Python indexing.) -/
def can_remove_vertex (s : State V) (vertex : V) : Bool :=
  if ¬ keyMem s.vertex_connections vertex then false
  else ((dget? s.vertex_connections vertex).getD []).all
    (fun neighbor => 3 < ((dget? s.vertex_connections neighbor).getD []).length)

/-- One iteration of the neighbor loop in `MeshTopology.remove_vertex`:
drop `vertex` from the adjacency set of the neighbor and delete the orientation
entries of both directed edges between them. -/
def remove_vertex_step (vertex : V) (st : State V) (neighbor : V) : State V :=
  let st :=
    if keyMem st.vertex_connections neighbor then
      { st with vertex_connections :=
          (dset st.vertex_connections neighbor
            (sdiscard ((dget? st.vertex_connections neighbor).getD []) vertex)) }
    else st
  { st with orientations :=
      (ddel (ddel st.orientations (some vertex, some neighbor)) (some neighbor, some vertex)) }

/-- `MeshTopology.remove_vertex`: refuse unless `can_remove_vertex` or
`force`; otherwise detach the vertex from every neighbor, clean up the
incident orientation entries, and delete the vertex itself. -/
def remove_vertex (s : State V) (vertex : V) (force : Bool) : State V :=
  if can_remove_vertex s vertex = false ∧ force = false then s
  else if ¬ keyMem s.vertex_connections vertex then s
  else
    let neighbors := (dget? s.vertex_connections vertex).getD []
    let s := neighbors.foldl (remove_vertex_step vertex) s
    { s with vertex_connections := ddel s.vertex_connections vertex }

/-- `MeshTopology.can_remove_edge`. -/
def can_remove_edge (s : State V) (fromV toV : V) : Bool :=
  keyMem s.vertex_connections fromV &&
    ((dget? s.vertex_connections fromV).getD []).contains toV &&
    (3 < ((dget? s.vertex_connections fromV).getD []).length) &&
    (3 < ((dget? s.vertex_connections toV).getD []).length)

/-- `MeshTopology._remove_edge_vertices` (the implementation behind
`remove_edge`). -/
def remove_edge (s : State V) (fromV toV : V) (force : Bool) : State V :=
  if can_remove_edge s fromV toV = false ∧ force = false then s
  else
    let ors := ddel (ddel s.orientations (some fromV, some toV)) (some toV, some fromV)
    let vc :=
      if keyMem s.vertex_connections fromV then
        dset s.vertex_connections fromV
          (sdiscard ((dget? s.vertex_connections fromV).getD []) toV)
      else s.vertex_connections
    let vc :=
      if keyMem vc toV then dset vc toV (sdiscard ((dget? vc toV).getD []) fromV)
      else vc
    { vertex_connections := vc, orientations := ors }

/-- `MeshTopology.get_oriented_vertices`: `(None, None)` if unoriented. -/
def get_oriented_vertices (s : State V) (oriented_edge : V × V) : Option V × Option V :=
  (dget? s.orientations (some oriented_edge.1, some oriented_edge.2)).getD (none, none)

/-- `MeshTopology.get_valence`. -/
def get_valence (s : State V) (vertex : V) : Nat :=
  ((dget? s.vertex_connections vertex).getD []).length

/-- `MeshTopology.set_orientation`: write the apex pair of `from_to` and of
its opposite, then patch the six surrounding directed-edge slots, reading the
`temp` values at exactly the moments the Python code does. -/
def set_orientation (s : State V) (from_to : V × V) (left_right : Option V × Option V) :
    Bool × State V :=
  let fromV := from_to.1
  let toV := from_to.2
  if ¬ (keyMem s.vertex_connections fromV = true ∧ keyMem s.vertex_connections toV = true) then
    (false, s)
  else
    let key : Option V × Option V := (some fromV, some toV)
    let third_vertex := match left_right.1 with
      | some t => some t
      | none => ((dget? s.orientations key).getD (none, none)).1
    let other_vertex := match left_right.2 with
      | some o => some o
      | none => ((dget? s.orientations key).getD (none, none)).2
    let opposite_side : Option V × Option V := (some toV, some fromV)
    let ors := dset s.orientations key (third_vertex, other_vertex)
    let ors := dset ors opposite_side (other_vertex, third_vertex)
    let temp1 := (dget? ors (some toV, third_vertex)).getD (none, none)
    let temp2 := (dget? ors (third_vertex, some fromV)).getD (none, none)
    let temp3 := (dget? ors (other_vertex, some toV)).getD (none, none)
    let temp4 := (dget? ors (some fromV, other_vertex)).getD (none, none)
    let ors := dset ors (some toV, third_vertex) (some fromV, temp1.2)
    let ors := dset ors (third_vertex, some fromV) (some toV, temp2.2)
    let ors :=
      if other_vertex ≠ none then
        dset (dset ors (other_vertex, some toV) (some fromV, temp3.2))
          (some fromV, other_vertex) (some toV, temp4.2)
      else ors
    let temp5 := (dget? ors (third_vertex, some toV)).getD (none, none)
    let temp6 := (dget? ors (some fromV, third_vertex)).getD (none, none)
    let temp7 := (dget? ors (some toV, other_vertex)).getD (none, none)
    let temp8 := (dget? ors (other_vertex, some fromV)).getD (none, none)
    let ors := dset ors (third_vertex, some toV) (temp5.1, some fromV)
    let ors := dset ors (some fromV, third_vertex) (temp6.1, some toV)
    let ors :=
      if other_vertex ≠ none then
        dset (dset ors (some toV, other_vertex) (temp7.1, some fromV))
          (other_vertex, some fromV) (temp8.1, some toV)
      else ors
    (true, { s with orientations := ors })

/-! ## Retriangulator (`retriangulator.py`) -/

/-- The `alternance` dict of `tag_propagation`.  (Python would raise
`KeyError` on `Default`; after the normalization step of `tag_propagation`
only `Plus`/`Minus` ever reach it, so the `Default` row is unreachable
there.) -/
def alternance : RetriangulationTag → RetriangulationTag
  | .Minus => .Plus
  | .Plus => .Minus
  | .Default => .Default

/-- Python `alternance.get(tag, dflt)`. -/
def alternance_get (tag dflt : RetriangulationTag) : RetriangulationTag :=
  match tag with
  | .Minus => .Plus
  | .Plus => .Minus
  | .Default => dflt

/-- Which endpoint the alternation walk starts from (`start_side`). -/
inductive Side : Type
  | left
  | right
deriving DecidableEq, Repr

/-- The assignment loop of `tag_propagation`:
`tag = start_tag; for v in vs: tag = alternance[tag]; tags[v] = tag`. -/
def assign_alternating : List (V × RetriangulationTag) → List V → RetriangulationTag →
    List (V × RetriangulationTag)
  | tags, [], _ => tags
  | tags, v :: rest, tag => assign_alternating (dset tags v (alternance tag)) rest (alternance tag)

/-- `Retriangulator.tag_propagation`: normalize Default endpoint tags, pick
the start side (Minus-priority when the endpoint tags differ, otherwise start
right), then assign alternating tags over the slice `pov[1:-1]` — forward
from the right, or in reversed order from the left. -/
def tag_propagation (tags : List (V × RetriangulationTag)) (patch_oriented_vertex : List V)
    (left_tag right_tag : RetriangulationTag) : List (V × RetriangulationTag) :=
  let norm : RetriangulationTag × RetriangulationTag :=
    if left_tag = .Default ∧ right_tag = .Default then (.Plus, .Minus)
    else if left_tag = .Default then (alternance_get right_tag .Plus, right_tag)
    else if right_tag = .Default then (left_tag, alternance_get left_tag .Minus)
    else (left_tag, right_tag)
  let left_tag := norm.1
  let right_tag := norm.2
  let start : RetriangulationTag × Side :=
    if left_tag ≠ right_tag then
      if left_tag = .Minus then (left_tag, .left) else (right_tag, .right)
    else (right_tag, .right)
  let interior := (patch_oriented_vertex.drop 1).dropLast
  match start.2 with
  | .right => assign_alternating tags interior start.1
  | .left => assign_alternating tags interior.reverse start.1

/-- Modelled from the spec claim (C9): the alternation starts from
`right_tag`, except that when the valence (= ring length) is odd and the
endpoint tags differ and the computed start would be `Plus`, the start is
flipped to `Minus`; assignment then walks the interior slice forward. -/
def tag_propagation_spec (tags : List (V × RetriangulationTag)) (patch_oriented_vertex : List V)
    (left_tag right_tag : RetriangulationTag) : List (V × RetriangulationTag) :=
  let start_tag :=
    if patch_oriented_vertex.length % 2 = 1 ∧ left_tag ≠ right_tag ∧ right_tag = .Plus then
      RetriangulationTag.Minus
    else right_tag
  assign_alternating tags ((patch_oriented_vertex.drop 1).dropLast) start_tag

/-- Mesh mutations performed by `triangulate_table`, in call order.  The
`set_orientation` calls there pass a single apex vertex (the pre-refactor
calling convention of `MeshTopology.set_orientation`), which is what the
operation records. -/
inductive MeshOp (V : Type) : Type
  | remove_vertex_force (vertex : V)
  | add_edge (fromV toV : V)
  | set_orientation_apex (from_to : V × V) (apex : V)
deriving DecidableEq, Repr

/-- `Retriangulator.triangulate_table` as the sequence of mesh calls it
makes: first `mesh.remove_vertex(front_vertex, force=True)`, then — valence
permitting — the `(left_tag, right_tag)`-indexed table row.  Python subscripts
`pov[i]` become `getD` (the caller asserts `len(pov) == valence`, which keeps
every index in range). -/
def triangulate_table [Inhabited V] (front_vertex : V) (pov : List V)
    (left_tag right_tag : RetriangulationTag) (valence : Nat) : List (MeshOp V) :=
  MeshOp.remove_vertex_force front_vertex ::
  (if valence < 3 ∨ 6 < valence then []
   else
     match left_tag, right_tag with
     | .Plus, .Minus =>
       if valence = 3 then
         [.set_orientation_apex (pov.getD 2 default, pov.getD 0 default) (pov.getD 1 default)]
       else if valence = 4 then
         [.add_edge (pov.getD 1 default) (pov.getD 3 default),
          .set_orientation_apex (pov.getD 1 default, pov.getD 3 default) (pov.getD 0 default)]
       else if valence = 5 then
         [.add_edge (pov.getD 4 default) (pov.getD 1 default),
          .add_edge (pov.getD 1 default) (pov.getD 3 default),
          .set_orientation_apex (pov.getD 3 default, pov.getD 1 default) (pov.getD 2 default),
          .set_orientation_apex (pov.getD 4 default, pov.getD 1 default) (pov.getD 3 default)]
       else if valence = 6 then
         [.add_edge (pov.getD 5 default) (pov.getD 1 default),
          .add_edge (pov.getD 3 default) (pov.getD 1 default),
          .add_edge (pov.getD 5 default) (pov.getD 3 default),
          .set_orientation_apex (pov.getD 1 default, pov.getD 5 default) (pov.getD 0 default),
          .set_orientation_apex (pov.getD 5 default, pov.getD 3 default) (pov.getD 4 default),
          .set_orientation_apex (pov.getD 3 default, pov.getD 1 default) (pov.getD 2 default)]
       else []
     | .Minus, .Plus =>
       if valence = 3 then
         [.set_orientation_apex (pov.getD 2 default, pov.getD 0 default) (pov.getD 1 default)]
       else if valence = 4 then
         [.add_edge (pov.getD 0 default) (pov.getD 2 default),
          .set_orientation_apex (pov.getD 0 default, pov.getD 2 default) (pov.getD 3 default)]
       else if valence = 5 then
         [.add_edge (pov.getD 1 default) (pov.getD 3 default),
          .add_edge (pov.getD 0 default) (pov.getD 3 default),
          .set_orientation_apex (pov.getD 0 default, pov.getD 3 default) (pov.getD 4 default),
          .set_orientation_apex (pov.getD 3 default, pov.getD 1 default) (pov.getD 2 default)]
       else if valence = 6 then
         [.add_edge (pov.getD 0 default) (pov.getD 2 default),
          .add_edge (pov.getD 2 default) (pov.getD 4 default),
          .add_edge (pov.getD 0 default) (pov.getD 4 default),
          .set_orientation_apex (pov.getD 0 default, pov.getD 4 default) (pov.getD 5 default),
          .set_orientation_apex (pov.getD 2 default, pov.getD 0 default) (pov.getD 1 default),
          .set_orientation_apex (pov.getD 4 default, pov.getD 2 default) (pov.getD 3 default)]
       else []
     | .Plus, .Plus =>
       if valence = 3 then
         [.set_orientation_apex (pov.getD 2 default, pov.getD 0 default) (pov.getD 1 default)]
       else if valence = 4 then
         [.add_edge (pov.getD 0 default) (pov.getD 2 default),
          .set_orientation_apex (pov.getD 0 default, pov.getD 2 default) (pov.getD 3 default)]
       else if valence = 5 then
         [.add_edge (pov.getD 0 default) (pov.getD 2 default),
          .add_edge (pov.getD 4 default) (pov.getD 2 default),
          .set_orientation_apex (pov.getD 2 default, pov.getD 0 default) (pov.getD 1 default),
          .set_orientation_apex (pov.getD 4 default, pov.getD 2 default) (pov.getD 3 default)]
       else if valence = 6 then
         [.add_edge (pov.getD 0 default) (pov.getD 2 default),
          .add_edge (pov.getD 2 default) (pov.getD 4 default),
          .add_edge (pov.getD 0 default) (pov.getD 4 default),
          .set_orientation_apex (pov.getD 0 default, pov.getD 4 default) (pov.getD 5 default),
          .set_orientation_apex (pov.getD 2 default, pov.getD 0 default) (pov.getD 1 default),
          .set_orientation_apex (pov.getD 4 default, pov.getD 2 default) (pov.getD 3 default)]
       else []
     | _, _ =>
       if valence = 3 then
         [.set_orientation_apex (pov.getD 2 default, pov.getD 0 default) (pov.getD 1 default)]
       else if valence = 4 then
         [.add_edge (pov.getD 1 default) (pov.getD 3 default),
          .set_orientation_apex (pov.getD 1 default, pov.getD 3 default) (pov.getD 0 default)]
       else if valence = 5 then
         [.add_edge (pov.getD 1 default) (pov.getD 4 default),
          .add_edge (pov.getD 1 default) (pov.getD 3 default),
          .set_orientation_apex (pov.getD 2 default, pov.getD 4 default) (pov.getD 0 default),
          .set_orientation_apex (pov.getD 3 default, pov.getD 1 default) (pov.getD 2 default)]
       else if valence = 6 then
         [.add_edge (pov.getD 5 default) (pov.getD 1 default),
          .add_edge (pov.getD 3 default) (pov.getD 1 default),
          .add_edge (pov.getD 5 default) (pov.getD 3 default),
          .set_orientation_apex (pov.getD 1 default, pov.getD 5 default) (pov.getD 0 default),
          .set_orientation_apex (pov.getD 5 default, pov.getD 3 default) (pov.getD 4 default),
          .set_orientation_apex (pov.getD 3 default, pov.getD 1 default) (pov.getD 2 default)]
       else [])

/-- Position-level mesh operations: ring indices instead of vertices. -/
inductive PosOp : Type
  | remove_front
  | add_edge (i j : Nat)
  | set_orientation_apex (i j k : Nat)
deriving DecidableEq, Repr

/-- The retriangulation table expressed purely on ring positions: a function
of `(left_tag, right_tag, valence)` alone. -/
def triangulate_table_positions (left_tag right_tag : RetriangulationTag) (valence : Nat) :
    List PosOp :=
  PosOp.remove_front ::
  (if valence < 3 ∨ 6 < valence then []
   else
     match left_tag, right_tag with
     | .Plus, .Minus =>
       if valence = 3 then [.set_orientation_apex 2 0 1]
       else if valence = 4 then [.add_edge 1 3, .set_orientation_apex 1 3 0]
       else if valence = 5 then
         [.add_edge 4 1, .add_edge 1 3, .set_orientation_apex 3 1 2, .set_orientation_apex 4 1 3]
       else if valence = 6 then
         [.add_edge 5 1, .add_edge 3 1, .add_edge 5 3,
          .set_orientation_apex 1 5 0, .set_orientation_apex 5 3 4, .set_orientation_apex 3 1 2]
       else []
     | .Minus, .Plus =>
       if valence = 3 then [.set_orientation_apex 2 0 1]
       else if valence = 4 then [.add_edge 0 2, .set_orientation_apex 0 2 3]
       else if valence = 5 then
         [.add_edge 1 3, .add_edge 0 3, .set_orientation_apex 0 3 4, .set_orientation_apex 3 1 2]
       else if valence = 6 then
         [.add_edge 0 2, .add_edge 2 4, .add_edge 0 4,
          .set_orientation_apex 0 4 5, .set_orientation_apex 2 0 1, .set_orientation_apex 4 2 3]
       else []
     | .Plus, .Plus =>
       if valence = 3 then [.set_orientation_apex 2 0 1]
       else if valence = 4 then [.add_edge 0 2, .set_orientation_apex 0 2 3]
       else if valence = 5 then
         [.add_edge 0 2, .add_edge 4 2, .set_orientation_apex 2 0 1, .set_orientation_apex 4 2 3]
       else if valence = 6 then
         [.add_edge 0 2, .add_edge 2 4, .add_edge 0 4,
          .set_orientation_apex 0 4 5, .set_orientation_apex 2 0 1, .set_orientation_apex 4 2 3]
       else []
     | _, _ =>
       if valence = 3 then [.set_orientation_apex 2 0 1]
       else if valence = 4 then [.add_edge 1 3, .set_orientation_apex 1 3 0]
       else if valence = 5 then
         [.add_edge 1 4, .add_edge 1 3, .set_orientation_apex 2 4 0, .set_orientation_apex 3 1 2]
       else if valence = 6 then
         [.add_edge 5 1, .add_edge 3 1, .add_edge 5 3,
          .set_orientation_apex 1 5 0, .set_orientation_apex 5 3 4, .set_orientation_apex 3 1 2]
       else [])

/-- Interpret a position-level operation on a concrete ring. -/
def interp_pos_op [Inhabited V] (front_vertex : V) (pov : List V) : PosOp → MeshOp V
  | .remove_front => .remove_vertex_force front_vertex
  | .add_edge i j => .add_edge (pov.getD i default) (pov.getD j default)
  | .set_orientation_apex i j k =>
      .set_orientation_apex (pov.getD i default, pov.getD j default) (pov.getD k default)

/-! ## Data structures: `Face`, `Gate`, `Patch`
(`data_structures/face.py`, `gate.py`, `patch.py`) -/

/-- `Face`: a vertex triple; equality/hash in Python ignore order, which the
explicit `face_eq` below captures. -/
structure Face (V : Type) where
  v1 : V
  v2 : V
  v3 : V
deriving DecidableEq, Repr

def Face.vertices (f : Face V) : List V := [f.v1, f.v2, f.v3]

/-- `Face.__eq__`: vertex-set equality, ignoring orientation. -/
def face_eq (f g : Face V) : Bool :=
  decide (∀ v ∈ f.vertices, v ∈ g.vertices) && decide (∀ v ∈ g.vertices, v ∈ f.vertices)

/-- `Face.next_vertex(edge)`: `None` when the edge is not an edge of the
face, else the first face vertex distinct from both endpoints.  (For a
degenerate face whose vertices all lie on the edge, the bare Python `next`
would raise `StopIteration`; this returns `none` there — such faces never
arise in the states used below.) -/
def next_vertex (f : Face V) (edge : V × V) : Option V :=
  if ¬ (edge.1 ∈ f.vertices ∧ edge.2 ∈ f.vertices) then none
  else f.vertices.find? (fun v => ¬ (v = edge.1) ∧ ¬ (v = edge.2))

/-- `Gate`: a directed edge plus the front vertex across it. -/
structure Gate (V : Type) where
  edge : V × V
  front_vertex : V
deriving DecidableEq, Repr

/-- `Patch`: a center vertex with its incident faces.  (`Patch.faces` is a
Python set; it is kept as a list here — the ring walk below consults it only
through searches whose match is unique in the states considered, so the
iteration order a Python set would impose is immaterial.) -/
structure Patch (V : Type) where
  center_vertex : V
  faces : List (Face V)
deriving DecidableEq, Repr

/-- The bounded walk of `Patch.surrounding_vertices`: at each of the
`max_steps` iterations, find a remaining face containing both the current
boundary vertex and the center, append its third vertex, and drop the face. -/
def surrounding_vertices_loop (center : V) :
    Nat → List (Face V) → List V → V → List V
  | 0, _, seq, _ => seq
  | n + 1, remaining, seq, current =>
    match remaining.find? (fun f => current ∈ f.vertices ∧ center ∈ f.vertices) with
    | none => seq
    | some f =>
      match next_vertex f (current, center) with
      | none => seq
      | some nv =>
          surrounding_vertices_loop center n (remaining.eraseP (fun g => face_eq g f))
            (seq ++ [nv]) nv

/-- `Patch.surrounding_vertices`: the ordered boundary ring starting with the
two entry-edge endpoints; the trailing duplicate of the first vertex is
popped at the end. -/
def surrounding_vertices (p : Patch V) (starting_edge : V × V) : List V :=
  let current_face : Face V := ⟨starting_edge.1, starting_edge.2, p.center_vertex⟩
  if ¬ (p.faces ≠ [] ∧ p.faces.any (fun f => face_eq f current_face) = true) then []
  else
    let remaining := p.faces.eraseP (fun f => face_eq f current_face)
    (surrounding_vertices_loop p.center_vertex remaining.length remaining
      [starting_edge.1, starting_edge.2] starting_edge.2).dropLast

/-- The edge-building loop of `Patch.surrounding_edges`; returns the chained
edges and the final `current_vertex`. -/
def edge_chain (current : V) : List V → List (V × V) × V
  | [] => ([], current)
  | nv :: rest =>
    let r := edge_chain nv rest
    ((current, nv) :: r.1, r.2)

/-- `Patch.surrounding_edges`: consecutive ring edges, closed back to the
first ring vertex. -/
def surrounding_edges [Inhabited V] (p : Patch V) (starting_edge : V × V) : List (V × V) :=
  let verts := surrounding_vertices p starting_edge
  if verts = [] then []
  else
    let r := edge_chain starting_edge.1 (verts.drop 1)
    r.1 ++ [(r.2, verts.headD default)]

/-- `MeshTopology.get_oriented_faces`. -/
def get_oriented_faces (s : State V) (from_to : V × V) : Option (Face V) × Option (Face V) :=
  let lr := get_oriented_vertices s from_to
  ((lr.1.map (fun lv => ⟨from_to.1, from_to.2, lv⟩) : Option (Face V)),
   (lr.2.map (fun rv => ⟨from_to.2, from_to.1, rv⟩) : Option (Face V)))

/-- One iteration of the `Patch.output_gates` loop: look outward across a
boundary edge (right face first, falling back to the left face when the
right apex is missing or is the center itself) and append a gate toward the
outward vertex. -/
def output_gates_step (s : State V) (center : V) (acc : List (Gate V)) (edge : V × V) :
    List (Gate V) :=
  let oriented_faces := get_oriented_faces s edge
  let outward : Option V :=
    match oriented_faces.2 with
    | some f => next_vertex f edge
    | none => none
  let outward :=
    if outward = some center ∨ outward = none then
      match oriented_faces.1 with
      | some f => next_vertex f edge
      | none => none
    else outward
  match outward with
  | none => acc
  | some w => acc ++ [⟨(edge.2, edge.1), w⟩]

/-- `Patch.output_gates`: one gate per boundary edge, with the leading entry
(the input gate) excluded by the final `[1:]`. -/
def output_gates [Inhabited V] (s : State V) (p : Patch V) (starting_edge : V × V) :
    List (Gate V) :=
  ((surrounding_edges p starting_edge).foldl (output_gates_step s p.center_vertex) []).drop 1

/-! ## Conquest engine (`__init__.py`) -/

/-- The `can_remove` binding of `PCLTTM.compress` (line 158) and
`PCLTTM._cleaning_phase` (line 393):
`can_remove = self.mesh.can_remove_vertex(center_vertex) or True`. -/
def compress_can_remove (s : State V) (center_vertex : V) : Bool :=
  can_remove_vertex s center_vertex || true

/-- The decimation-branch condition of `PCLTTM.compress` (line 163):
vertex Free, valence in `[3, 4, 5, 6]`, and `can_remove`. -/
def compress_decimation_condition (state_flags : List (V × StateFlag)) (s : State V)
    (center_vertex : V) : Bool :=
  let vertex_state := (dget? state_flags center_vertex).getD .Free
  let valence := get_valence s center_vertex
  decide (vertex_state = .Free) && decide (valence ∈ [3, 4, 5, 6]) &&
    compress_can_remove s center_vertex

/-- The decimation-branch condition of `PCLTTM._cleaning_phase` (line 398):
vertex Free, valence exactly 3, and `can_remove`. -/
def cleaning_decimation_condition (state_flags : List (V × StateFlag)) (s : State V)
    (center_vertex : V) : Bool :=
  let vertex_state := (dget? state_flags center_vertex).getD .Free
  let valence := get_valence s center_vertex
  decide (vertex_state = .Free) && decide (valence = 3) && compress_can_remove s center_vertex

/-- The gate-enqueue filter of `PCLTTM.compress` (lines 189–196): every
output gate is appended to the FIFO except the one that *is*
`out_gates[-1]`.  `Gate` defines no `__eq__`, so the Python `!=` there is
object identity, and the freshly built gates make exactly the last list
position the one skipped; positions model that identity test. -/
def compress_enqueued_gates (out_gates : List (Gate V)) : List (Gate V) :=
  (out_gates.enum.filter (fun p => ¬ (p.1 = out_gates.length - 1))).map (·.2)

/-! ## Snapshots and diff (`mesh.py`: `State.compression_difference`,
`MeshTopology.commit`) -/

/-- Python exceptions surfaced by the embedding. -/
inductive PyError : Type
  | attributeError (message : String)
deriving DecidableEq, Repr

/-- Python `self.orientations.keys().difference(...)` — `dict_keys` has no
`difference` method (set *operators* exist on key views, the named method
does not), so the attribute lookup raises before any set arithmetic. -/
def dict_keys_difference {K : Type} (_ks _others : List K) : Except PyError (List K) :=
  .error (.attributeError "dict_keys object has no attribute difference")

/-- `MeshTopology.State.compression_difference`: collect the vertices of
`previous_state` missing from `self` together with their previous adjacency,
then attempt the edge pass, which raises `AttributeError` on its
`dict_keys.difference` call. -/
def compression_difference (self_state previous_state : State V) :
    Except PyError
      (List (V × List V) × List ((Option V × Option V) × (Option V × Option V))) := do
  let vertex_to_add := (dkeys previous_state.vertex_connections).filter
    (fun v => ¬ keyMem self_state.vertex_connections v = true)
  let vertex_connections_to_add := vertex_to_add.map
    (fun v => (v, (dget? previous_state.vertex_connections v).getD []))
  let edge_keys ← dict_keys_difference (dkeys self_state.orientations)
    (dkeys previous_state.orientations)
  let edges_to_remove := edge_keys.foldl
    (fun acc edge =>
      if ¬ keyMem acc (edge.2, edge.1) then
        dset acc edge ((dget? self_state.orientations edge).getD (none, none))
      else acc)
    []
  return (vertex_connections_to_add, edges_to_remove)

/-- `MeshTopology`: the live state plus the deque of committed snapshots,
seeded with a copy of the initial (empty) state. -/
structure Mesh (V : Type) where
  active_state : State V
  committed_states : List (State V)
deriving DecidableEq, Repr

/-- A freshly constructed `MeshTopology()`. -/
def Mesh.init (V : Type) : Mesh V := ⟨State.empty V, [State.empty V]⟩

/-- `MeshTopology.commit`: diff the active state against the last committed
snapshot, then append a deep copy of the active state.  The diff is computed
first, so the `AttributeError` raised inside `compression_difference`
propagates before any snapshot is appended. -/
def commit (m : Mesh V) :
    Except PyError
      ((List (V × List V) × List ((Option V × Option V) × (Option V × Option V))) × Mesh V) := do
  let last_state := m.committed_states.getLastD (State.empty V)
  let diff ← compression_difference m.active_state last_state
  return (diff, { m with committed_states := m.committed_states ++ [m.active_state] })

/-! ## Derived notions and concrete states used by the theorems -/

/-- Recognizer for `mesh.add_edge` calls in a `triangulate_table` trace. -/
def is_add_edge {V : Type} : MeshOp V → Bool
  | .add_edge _ _ => true
  | _ => false

/-- Number of diagonals (`mesh.add_edge` calls) in an operation trace. -/
def count_add_edges {V : Type} (ops : List (MeshOp V)) : Nat :=
  (ops.filter is_add_edge).length

/-- The start tag in the claim formulation of C9: `right_tag`, flipped to
`Minus` for odd valence when the endpoint tags differ and the computed start
would be `Plus`. -/
def spec_start_tag (valence : Nat) (left_tag right_tag : RetriangulationTag) :
    RetriangulationTag :=
  if valence % 2 = 1 ∧ left_tag ≠ right_tag ∧ right_tag = .Plus then .Minus else right_tag

/-- The tag assigned after `n` alternation steps from start `t` (only the
parity of `n` matters). -/
def alt_iter (t : RetriangulationTag) (n : Nat) : RetriangulationTag :=
  if n % 2 = 0 then t else alternance t

/-- Well-formedness of the adjacency dict (true of every state built from a
genuine mesh): neighbor sets have no duplicates, no vertex lists itself as a
neighbor, and every neighbor is itself a known vertex (a dangling neighbor
would make the Python `can_remove_vertex` raise `KeyError`). -/
def WFvc (s : State V) : Prop :=
  ∀ p ∈ s.vertex_connections, p.2.Nodup ∧ p.1 ∉ p.2 ∧
    ∀ n ∈ p.2, keyMem s.vertex_connections n = true

instance (s : State V) : Decidable (WFvc s) := by
  unfold WFvc
  infer_instance

/-- Orientation symmetry (spec §8): every directed edge present in the
orientation map has its reverse present, with the apex pair swapped. -/
def OrientationSym (ors : List ((Option V × Option V) × (Option V × Option V))) : Prop :=
  ∀ a b : Option V, dget? ors (a, b) = (dget? ors (b, a)).map Prod.swap

/-- A tetrahedron: four vertices, all adjacent; every vertex has valence 3,
so `can_remove_vertex` is false everywhere. -/
def tetrahedron : State Nat :=
  let s := add_vertex (State.empty Nat) 0 []
  let s := add_vertex s 1 []
  let s := add_vertex s 2 []
  let s := add_vertex s 3 []
  let s := (add_edge s 0 1).2
  let s := (add_edge s 0 2).2
  let s := (add_edge s 0 3).2
  let s := (add_edge s 1 2).2
  let s := (add_edge s 1 3).2
  (add_edge s 2 3).2

/-- A mesh state in which vertex `0` is removable: its neighbors `1`, `2`,
`3` all have valence 4. -/
def removable_witness_state : State Nat :=
  ⟨[(0, [1, 2, 3]), (1, [0, 2, 3, 4]), (2, [0, 1, 3, 4]), (3, [0, 1, 2, 4]),
    (4, [1, 2, 3])], []⟩

/-- A state in which removing vertex `0` (forced, as the Retriangulator
does) leaves the entry keyed `(1, 2)` intact with apex `0`. -/
def apex_witness_state : State Nat :=
  ⟨[(0, [1, 2]), (1, [0, 2]), (2, [0, 1])], [((some 1, some 2), (some 0, none))]⟩

/-- The valence-4 test patch: center `0`, ring `[1, 2, 3, 4]`, outward
vertices `5`–`8` across the four ring edges. -/
def ring_patch : Patch Nat :=
  ⟨0, [⟨1, 2, 0⟩, ⟨2, 3, 0⟩, ⟨3, 4, 0⟩, ⟨4, 1, 0⟩]⟩

/-- Orientation entries giving each ring edge the center as left apex and a
distinct outward vertex as right apex. -/
def ring_state : State Nat :=
  ⟨[], [((some 1, some 2), (some 0, some 5)), ((some 2, some 3), (some 0, some 6)),
        ((some 3, some 4), (some 0, some 7)), ((some 4, some 1), (some 0, some 8))]⟩

/-- A reachable state exercising the C6 quantifier: three vertices are
added, then `set_orientation` is called on the degenerate edge `(0, 0)` with
the apex pair `(1, 2)`. -/
def degenerate_call_state : State Nat :=
  (set_orientation (add_vertex (add_vertex (add_vertex (State.empty Nat) 0 []) 1 []) 2 [])
    (0, 0) (some 1, some 2)).2

/-- A small symmetric state for the C6 witness. -/
def sym_witness_state : State Nat :=
  ⟨[(0, [1]), (1, [0]), (2, []), (3, [])], []⟩

/-! ## Shared helper lemmas -/

theorem getElem?_getD_mem {A : Type} [Inhabited A] (l : List A) (i : Nat) (h : i < l.length) :
    l[i]?.getD default ∈ l := by
  induction l generalizing i with
  | nil => simp at h
  | cons x t ih =>
    cases i with
    | zero => simp
    | succ n =>
      have hn : n < t.length := by simpa using h
      simpa using List.mem_cons_of_mem x (ih n hn)

/-- The retriangulation table factors through ring positions: the operation
sequence is the positional table of `(left_tag, right_tag, valence)` mapped
over the ring. -/
theorem tt_factors_through_positions {V : Type} [DecidableEq V] [Inhabited V]
    (front_vertex : V) (pov : List V) (left_tag right_tag : RetriangulationTag)
    (valence : Nat) :
    triangulate_table front_vertex pov left_tag right_tag valence =
      (triangulate_table_positions left_tag right_tag valence).map
        (interp_pos_op front_vertex pov) := by
  cases left_tag <;> cases right_tag <;>
    simp only [triangulate_table, triangulate_table_positions, List.map_cons, List.map] <;>
    split_ifs <;> rfl

theorem add_edge_dkeys {V : Type} [DecidableEq V] (s : State V) (x y : V) :
    dkeys (add_edge s x y).2.vertex_connections = dkeys s.vertex_connections := by
  unfold add_edge
  split
  · rfl
  · rename_i h
    rcases not_not.mp (fun hc => h (by tauto)) with ⟨hx, hy⟩
    have h1 : dkeys (dset s.vertex_connections x
        (sadd ((dget? s.vertex_connections x).getD []) y)) = dkeys s.vertex_connections :=
      dkeys_dset_of_key _ _ _ hx
    have hy2 : keyMem (dset s.vertex_connections x
        (sadd ((dget? s.vertex_connections x).getD []) y)) y = true := by
      rw [keyMem_iff_dget?, dget?_dset]
      by_cases hxy : y = x
      · simp [hxy]
      · rw [if_neg hxy, ← keyMem_iff_dget?]
        exact hy
    simp only []
    rw [dkeys_dset_of_key _ _ _ hy2, h1]

/-! ## C1 — the conquest engine decimation guard -/

/-- C1: the claim says the front vertex of a popped gate is decimated only if
`can_remove_vertex(front)` returns true, with a Null code otherwise.  The
code instead computes `can_remove = mesh.can_remove_vertex(center) or True`
(`__init__.py` lines 158 and 393), so on a tetrahedron — where
`can_remove_vertex` returns false for every vertex — both the decimation
pass and the cleaning pass still take the decimation branch for a Free
valence-3 front vertex instead of the null-patch branch. -/
theorem compress_decimates_despite_unremovable_front :
    can_remove_vertex tetrahedron 0 = false ∧
    compress_decimation_condition [] tetrahedron 0 = true ∧
    cleaning_decimation_condition [] tetrahedron 0 = true := by
  decide

/-! ## C2 — `commit` and `compression_difference` -/

/-- C2: the claim says `commit()` appends a snapshot and returns the
structural diff.  In the code the edge pass of `compression_difference`
invokes `dict_keys.difference`, an attribute that does not exist, so every
call of `commit` raises `AttributeError` before a snapshot is appended. -/
theorem commit_always_raises {V : Type} [DecidableEq V] (m : Mesh V) :
    commit m = .error (.attributeError "dict_keys object has no attribute difference") := by
  rfl

/-! ## C3 — retriangulation determinism -/

/-- C3: the operation sequence of `triangulate_table` — its diagonal
insertions and orientation assignments — is the positional table of
`(left_tag, right_tag, valence)` mapped over the ring, hence identical by
ring position across any two calls with the same tags and valence, and
independent of which vertices (with whatever coordinates) sit on the ring. -/
theorem triangulate_table_deterministic {V : Type} [DecidableEq V] [Inhabited V]
    (front_vertex : V) (pov : List V) (left_tag right_tag : RetriangulationTag)
    (valence : Nat) :
    triangulate_table front_vertex pov left_tag right_tag valence =
      (triangulate_table_positions left_tag right_tag valence).map
        (interp_pos_op front_vertex pov) :=
  tt_factors_through_positions front_vertex pov left_tag right_tag valence

/-! ## C7 — diagonal count of the triangulation table -/

/-- C7: for Plus/Minus endpoint tags and valence `v ∈ [3,6]` on a ring of
length `v`, `triangulate_table` performs exactly `v - 3` `add_edge` calls,
every inserted diagonal joins two ring vertices, valence 3 inserts none, and
`mesh.add_edge` itself never creates a vertex (the key set of
`vertex_connections` is unchanged). -/
theorem triangulate_table_diagonal_count {V : Type} [DecidableEq V] [Inhabited V]
    (front_vertex : V) (pov : List V) (left_tag right_tag : RetriangulationTag)
    (valence : Nat)
    (hl : left_tag ≠ .Default) (hr : right_tag ≠ .Default)
    (h3 : 3 ≤ valence) (h6 : valence ≤ 6) (hlen : pov.length = valence) :
    count_add_edges (triangulate_table front_vertex pov left_tag right_tag valence)
        = valence - 3 ∧
    (∀ a b : V,
        MeshOp.add_edge a b ∈ triangulate_table front_vertex pov left_tag right_tag valence →
        a ∈ pov ∧ b ∈ pov) ∧
    (valence = 3 →
        count_add_edges (triangulate_table front_vertex pov left_tag right_tag valence) = 0) ∧
    (∀ (s : State V) (x y : V),
        dkeys (add_edge s x y).2.vertex_connections = dkeys s.vertex_connections) := by
  have hcount :
      count_add_edges (triangulate_table front_vertex pov left_tag right_tag valence)
        = valence - 3 := by
    interval_cases valence <;> cases left_tag <;> cases right_tag <;>
      first
      | exact absurd rfl hl
      | exact absurd rfl hr
      | rfl
  refine ⟨hcount, ?_, fun hv => by rw [hcount, hv], fun s x y => add_edge_dkeys s x y⟩
  intro a b hm
  interval_cases valence <;> cases left_tag <;> cases right_tag <;>
    first
    | exact absurd rfl hl
    | exact absurd rfl hr
    | (simp [triangulate_table] at hm
       first
       | done
       | (rcases hm with ⟨rfl, rfl⟩ | ⟨rfl, rfl⟩ | ⟨rfl, rfl⟩ <;>
           constructor <;> (apply getElem?_getD_mem; omega))
       | (rcases hm with ⟨rfl, rfl⟩ | ⟨rfl, rfl⟩ <;>
           constructor <;> (apply getElem?_getD_mem; omega))
       | (obtain ⟨rfl, rfl⟩ := hm
          constructor <;> (apply getElem?_getD_mem; omega)))

/-- Witness for C7 at a concrete input: the Minus/Plus valence-5 table on
the ring `[0, 1, 2, 3, 4]` inserts exactly two diagonals, both between ring
vertices. -/
theorem triangulate_table_diagonal_count_witness :
    (RetriangulationTag.Minus ≠ RetriangulationTag.Default) ∧
    (RetriangulationTag.Plus ≠ RetriangulationTag.Default) ∧
    count_add_edges (triangulate_table (10 : Nat) [0, 1, 2, 3, 4] .Minus .Plus 5) = 2 :=
  ⟨by decide, by decide,
    (triangulate_table_diagonal_count 10 [0, 1, 2, 3, 4] .Minus .Plus 5
      (by decide) (by decide) (by decide) (by decide) (by decide)).1⟩

/-! ## C9 — the tag-propagation start rule -/

theorem alternance_alternance (t : RetriangulationTag) : alternance (alternance t) = t := by
  cases t <;> rfl

theorem alt_iter_succ (t : RetriangulationTag) (n : Nat) :
    alt_iter t (n + 1) = alt_iter (alternance t) n := by
  unfold alt_iter
  rcases Nat.mod_two_eq_zero_or_one n with h | h
  · rw [h, show (n + 1) % 2 = 1 by omega]
    simp
  · rw [h, show (n + 1) % 2 = 0 by omega]
    simp [alternance_alternance]

theorem alt_iter_parity (t : RetriangulationTag) (m n : Nat) (h : m % 2 = n % 2) :
    alt_iter t m = alt_iter t n := by
  unfold alt_iter
  rw [h]

theorem alt_iter_minus_plus (m n : Nat) (h : ¬ m % 2 = n % 2) :
    alt_iter .Minus m = alt_iter .Plus n := by
  unfold alt_iter
  rcases Nat.mod_two_eq_zero_or_one m with hm | hm <;>
    rcases Nat.mod_two_eq_zero_or_one n with hn | hn
  · exact absurd (hm.trans hn.symm) h
  · rw [hm, hn]
    rfl
  · rw [hm, hn]
    rfl
  · exact absurd (hm.trans hn.symm) h

theorem assign_alternating_not_mem (tags : List (V × RetriangulationTag)) (l : List V)
    (t : RetriangulationTag) (x : V) (hx : x ∉ l) :
    dget? (assign_alternating tags l t) x = dget? tags x := by
  induction l generalizing tags t with
  | nil => rfl
  | cons v rest ih =>
    have hxv : ¬ x = v := fun h => hx (h ▸ List.mem_cons_self v rest)
    have hxr : x ∉ rest := fun h => hx (List.mem_cons_of_mem v h)
    rw [show assign_alternating tags (v :: rest) t
        = assign_alternating (dset tags v (alternance t)) rest (alternance t) from rfl]
    rw [ih _ _ hxr, dget?_dset, if_neg hxv]

theorem assign_alternating_split (tags : List (V × RetriangulationTag))
    (l₁ l₂ : List V) (x : V) (t : RetriangulationTag) (hx : x ∉ l₂) :
    dget? (assign_alternating tags (l₁ ++ x :: l₂) t) x
      = some (alt_iter t (l₁.length + 1)) := by
  induction l₁ generalizing tags t with
  | nil =>
    rw [List.nil_append,
      show assign_alternating tags (x :: l₂) t
        = assign_alternating (dset tags x (alternance t)) l₂ (alternance t) from rfl,
      assign_alternating_not_mem _ _ _ _ hx, dget?_dset, if_pos rfl]
    simp [alt_iter]
  | cons v rest ih =>
    rw [List.cons_append,
      show assign_alternating tags (v :: (rest ++ x :: l₂)) t
        = assign_alternating (dset tags v (alternance t)) (rest ++ x :: l₂) (alternance t)
        from rfl,
      ih _ _]
    rw [show (v :: rest).length + 1 = (rest.length + 1) + 1 by simp,
      alt_iter_succ t (rest.length + 1)]

/-- Walking the interior in reversed order starting from `Minus` assigns the
same final tags as walking it forward from a parity-corrected start. -/
theorem assign_reverse_eq_forward (l : List V) (hl : l.Nodup)
    (tags : List (V × RetriangulationTag)) (x : V) :
    dget? (assign_alternating tags l.reverse .Minus) x
      = dget? (assign_alternating tags l
          (if l.length % 2 = 1 then .Minus else .Plus)) x := by
  by_cases hx : x ∈ l
  · rcases List.append_of_mem hx with ⟨s, t2, rfl⟩
    have hnd := List.nodup_append.mp hl
    have hxt2 : x ∉ t2 := (List.nodup_cons.mp hnd.2.1).1
    have hxs : x ∉ s := fun hxs => hnd.2.2 hxs (List.mem_cons_self x t2)
    have hrev : (s ++ x :: t2).reverse = t2.reverse ++ x :: s.reverse := by
      simp
    rw [hrev, assign_alternating_split _ _ _ _ _ (by simpa using hxs),
      assign_alternating_split _ _ _ _ _ hxt2]
    congr 1
    rw [List.length_reverse]
    by_cases hp : (s ++ x :: t2).length % 2 = 1
    · rw [if_pos hp]
      apply alt_iter_parity
      simp only [List.length_append, List.length_cons] at hp
      omega
    · rw [if_neg hp]
      apply alt_iter_minus_plus
      simp only [List.length_append, List.length_cons] at hp
      omega
  · rw [assign_alternating_not_mem _ _ _ _ (by simpa using hx),
      assign_alternating_not_mem _ _ _ _ hx]

/-- C9: the final tag dictionaries of the implemented `tag_propagation` (Minus-side
start, possibly walking the ring slice in reversed order) and of the claimed
formulation (start from `right_tag`, flipped to Minus on odd valence when the
tags differ and the start would be Plus, walking forward) agree at every
vertex, for Plus/Minus endpoint tags and a duplicate-free interior slice;
moreover the claimed start tag for `left_tag = Plus, right_tag = Minus` is
`Minus` at valence 3 and 5. -/
theorem tag_propagation_start_rule (tags : List (V × RetriangulationTag))
    (pov : List V) (left_tag right_tag : RetriangulationTag)
    (hl : left_tag ≠ .Default) (hr : right_tag ≠ .Default)
    (hnd : ((pov.drop 1).dropLast).Nodup) :
    (∀ x : V, dget? (tag_propagation tags pov left_tag right_tag) x
        = dget? (tag_propagation_spec tags pov left_tag right_tag) x) ∧
    spec_start_tag 3 .Plus .Minus = .Minus ∧
    spec_start_tag 5 .Plus .Minus = .Minus := by
  refine ⟨?_, by decide, by decide⟩
  intro x
  cases left_tag with
  | Default => exact absurd rfl hl
  | Plus =>
    cases right_tag with
    | Default => exact absurd rfl hr
    | Plus =>
      simp [tag_propagation, tag_propagation_spec, spec_start_tag]
    | Minus =>
      simp [tag_propagation, tag_propagation_spec, spec_start_tag]
  | Minus =>
    cases right_tag with
    | Default => exact absurd rfl hr
    | Minus =>
      simp [tag_propagation, tag_propagation_spec, spec_start_tag]
    | Plus =>
      have hrw : tag_propagation tags pov .Minus .Plus
          = assign_alternating tags ((pov.drop 1).dropLast).reverse .Minus := by
        simp [tag_propagation]
      have hrw2 : tag_propagation_spec tags pov .Minus .Plus
          = assign_alternating tags ((pov.drop 1).dropLast)
              (if pov.length % 2 = 1 then .Minus else .Plus) := by
        simp only [tag_propagation_spec, spec_start_tag]
        congr 1
        by_cases hp : pov.length % 2 = 1 <;> simp [hp]
      rw [hrw, hrw2, assign_reverse_eq_forward _ hnd]
      by_cases h2 : 2 ≤ pov.length
      · have hlen : (pov.drop 1).dropLast.length = pov.length - 2 := by
          simp only [List.length_dropLast, List.length_drop]
          omega
        rw [show (pov.drop 1).dropLast.length % 2 = pov.length % 2 by rw [hlen]; omega]
      · have hz : (pov.drop 1).dropLast = [] := by
          apply List.length_eq_zero.mp
          simp only [List.length_dropLast, List.length_drop]
          omega
        rw [hz]
        rfl

/-- Witness for C9 at a concrete input: valence-5 ring, tags
`(Minus, Plus)` — the case exercising the reversed walk. -/
theorem tag_propagation_start_rule_witness :
    (RetriangulationTag.Minus ≠ RetriangulationTag.Default) ∧
    (RetriangulationTag.Plus ≠ RetriangulationTag.Default) ∧
    (((([0, 1, 2, 3, 4] : List Nat).drop 1).dropLast).Nodup) ∧
    dget? (tag_propagation ([] : List (Nat × RetriangulationTag)) [0, 1, 2, 3, 4]
        .Minus .Plus) 2
      = dget? (tag_propagation_spec ([] : List (Nat × RetriangulationTag)) [0, 1, 2, 3, 4]
        .Minus .Plus) 2 :=
  ⟨by decide, by decide, by decide,
    (tag_propagation_start_rule [] [0, 1, 2, 3, 4] .Minus .Plus
      (by decide) (by decide) (by decide)).1 2⟩

/-! ## C4 — what `tag_propagation` writes -/

/-- C4 counterexample: on ring `[0, 1, 2, 3]` with `left_tag = Plus`,
`right_tag = Minus` and vertex `2` already tagged `Plus`, the call rewrites
vertex `2` to `Minus` (overwriting a Plus tag, contrary to the claim) and
also rewrites the right gate endpoint `pov[1] = 1` (which the claim says is
excluded). -/
theorem tag_propagation_overwrites_counterexample :
    dget? ([(0, RetriangulationTag.Plus), (1, .Minus), (2, .Plus)]
        : List (Nat × RetriangulationTag)) 2 = some .Plus ∧
    dget? (tag_propagation
        ([(0, RetriangulationTag.Plus), (1, .Minus), (2, .Plus)]
          : List (Nat × RetriangulationTag))
        [0, 1, 2, 3] .Plus .Minus) 2 = some .Minus ∧
    dget? (tag_propagation
        ([(0, RetriangulationTag.Plus), (1, .Minus), (2, .Plus)]
          : List (Nat × RetriangulationTag))
        [0, 1, 2, 3] .Plus .Minus) 1 = some .Plus := by
  decide

/-- C4 amended: `tag_propagation` writes only within the slice `pov[1:-1]`
(which includes the right gate endpoint `pov[1]` and excludes `pov[0]` and
the last ring vertex), overwriting unconditionally there; every vertex
outside that slice keeps its previous tag. -/
theorem tag_propagation_frame (tags : List (V × RetriangulationTag)) (pov : List V)
    (left_tag right_tag : RetriangulationTag) (x : V)
    (hx : x ∉ (pov.drop 1).dropLast) :
    dget? (tag_propagation tags pov left_tag right_tag) x = dget? tags x := by
  simp only [tag_propagation]
  split_ifs <;>
    first
    | exact assign_alternating_not_mem _ _ _ _ hx
    | exact assign_alternating_not_mem _ _ _ _ (by simpa using hx)

/-- Witness for the C4 frame property: `pov[0] = 0` lies outside the slice
and keeps its tag. -/
theorem tag_propagation_frame_witness :
    ((0 : Nat) ∉ (([0, 1, 2, 3] : List Nat).drop 1).dropLast) ∧
    dget? (tag_propagation
        ([(0, RetriangulationTag.Plus), (1, .Minus), (2, .Plus)]
          : List (Nat × RetriangulationTag))
        [0, 1, 2, 3] .Plus .Minus) 0
      = dget? ([(0, RetriangulationTag.Plus), (1, .Minus), (2, .Plus)]
          : List (Nat × RetriangulationTag)) 0 :=
  ⟨by decide, tag_propagation_frame _ _ _ _ _ (by decide)⟩

/-! ## C10 / C5 — `remove_vertex` -/

theorem keyMem_eq_isSome {K A : Type} [DecidableEq K] (d : List (K × A)) (k : K) :
    keyMem d k = (dget? d k).isSome := by
  by_cases h : keyMem d k = true
  · rw [h, ((keyMem_iff_dget? d k).mp h)]
  · have h2 : ¬ (dget? d k).isSome = true := fun hs => h ((keyMem_iff_dget? d k).mpr hs)
    rw [Bool.not_eq_true] at h h2
    rw [h, h2]

theorem dget?_eq_some_mem {K A : Type} [DecidableEq K] (d : List (K × A)) (k : K) (a : A)
    (h : dget? d k = some a) : (k, a) ∈ d := by
  induction d with
  | nil => simp [dget?] at h
  | cons p t ih =>
    by_cases hpk : p.1 = k
    · simp only [dget?, List.find?] at h
      rw [show (decide (p.1 = k)) = true by simp [hpk]] at h
      have hval : p.2 = a := Option.some.inj h
      have hpe : p = (k, a) := by rw [← hpk, ← hval]
      exact hpe ▸ List.mem_cons_self p t
    · simp only [dget?, List.find?] at h
      rw [show (decide (p.1 = k)) = false by simp [hpk]] at h
      exact List.mem_cons_of_mem p (ih h)

theorem remove_vertex_step_orientations (v n : V) (st : State V)
    (k : Option V × Option V) :
    dget? (remove_vertex_step v st n).orientations k
      = if k = ((some v : Option V), (some n : Option V)) ∨ k = (some n, some v) then none
        else dget? st.orientations k := by
  unfold remove_vertex_step
  split <;>
  · rw [dget?_ddel, dget?_ddel]
    by_cases h1 : k = ((some n : Option V), (some v : Option V))
    · simp [h1]
    · by_cases h2 : k = ((some v : Option V), (some n : Option V)) <;> simp [h1, h2]

theorem remove_vertex_fold_orientations (v : V) (l : List V) (s : State V) (a b : V)
    (ha : ¬ a = v) (hb : ¬ b = v) :
    dget? ((l.foldl (remove_vertex_step v) s)).orientations (some a, some b)
      = dget? s.orientations (some a, some b) := by
  induction l generalizing s with
  | nil => rfl
  | cons n rest ih =>
    rw [List.foldl_cons, ih, remove_vertex_step_orientations, if_neg]
    rintro (h | h)
    · exact ha (Option.some.inj (congrArg Prod.fst h))
    · exact hb (Option.some.inj (congrArg Prod.snd h))

/-- C10: `remove_vertex` deletes only orientation entries keyed by an edge
incident to the removed vertex; any entry keyed by an edge between two other
vertices — whatever its apex values, including the removed vertex itself —
is left untouched. -/
theorem remove_vertex_orientation_frame (s : State V) (v a b : V) (force : Bool)
    (ha : ¬ a = v) (hb : ¬ b = v) :
    dget? (remove_vertex s v force).orientations (some a, some b)
      = dget? s.orientations (some a, some b) := by
  unfold remove_vertex
  split
  · rfl
  · split
    · rfl
    · exact remove_vertex_fold_orientations v _ s a b ha hb

/-- Witness for C10: after the removal of vertex `0`, the orientation entry
keyed `(1, 2)` is unchanged and still stores the removed vertex `0` as an
apex, while `0` itself is gone from the mesh. -/
theorem remove_vertex_orientation_frame_witness :
    (¬ (1 : Nat) = 0) ∧ (¬ (2 : Nat) = 0) ∧
    dget? (remove_vertex apex_witness_state 0 true).orientations (some 1, some 2)
      = dget? apex_witness_state.orientations (some 1, some 2) ∧
    dget? (remove_vertex apex_witness_state 0 true).orientations (some 1, some 2)
      = some (some 0, none) ∧
    keyMem (remove_vertex apex_witness_state 0 true).vertex_connections 0 = false :=
  ⟨by decide, by decide,
    remove_vertex_orientation_frame apex_witness_state 0 1 2 true (by decide) (by decide),
    by decide, by decide⟩

theorem remove_vertex_step_vc (v n : V) (st : State V) (q : V) :
    dget? (remove_vertex_step v st n).vertex_connections q
      = if q = n ∧ keyMem st.vertex_connections n = true
        then some (sdiscard ((dget? st.vertex_connections n).getD []) v)
        else dget? st.vertex_connections q := by
  unfold remove_vertex_step
  split
  · rename_i hmem
    show dget? (dset st.vertex_connections n
        (sdiscard ((dget? st.vertex_connections n).getD []) v)) q = _
    rw [dget?_dset]
    by_cases hq : q = n
    · rw [if_pos hq, if_pos ⟨hq, hmem⟩]
    · rw [if_neg hq,
        if_neg (show ¬ (q = n ∧ keyMem st.vertex_connections n = true) from
          fun hc => hq hc.1)]
  · rename_i hmem
    show dget? st.vertex_connections q = _
    rw [if_neg (show ¬ (q = n ∧ keyMem st.vertex_connections n = true) from
      fun hc => hmem hc.2)]

theorem remove_vertex_step_keyMem (v n : V) (st : State V) (q : V) :
    keyMem (remove_vertex_step v st n).vertex_connections q
      = keyMem st.vertex_connections q := by
  rw [keyMem_eq_isSome, keyMem_eq_isSome, remove_vertex_step_vc]
  by_cases hq : q = n ∧ keyMem st.vertex_connections n = true
  · rw [if_pos hq]
    rcases hq with ⟨rfl, hm⟩
    rw [keyMem_eq_isSome] at hm
    rw [hm]
    rfl
  · rw [if_neg hq]

theorem remove_vertex_fold_vc (v : V) (l : List V) (hl : l.Nodup) (s : State V) (q : V) :
    dget? ((l.foldl (remove_vertex_step v) s)).vertex_connections q
      = if q ∈ l ∧ keyMem s.vertex_connections q = true
        then some (sdiscard ((dget? s.vertex_connections q).getD []) v)
        else dget? s.vertex_connections q := by
  induction l generalizing s with
  | nil => simp
  | cons n rest ih =>
    rcases List.nodup_cons.mp hl with ⟨hn, hrest⟩
    rw [List.foldl_cons, ih hrest, remove_vertex_step_keyMem]
    by_cases hq : q ∈ rest
    · have hqn : ¬ q = n := fun h => hn (h ▸ hq)
      rw [remove_vertex_step_vc,
        if_neg (show ¬ (q = n ∧ keyMem s.vertex_connections n = true) from
          fun hc => hqn hc.1)]
      by_cases hkm : keyMem s.vertex_connections q = true
      · rw [if_pos ⟨hq, hkm⟩, if_pos ⟨List.mem_cons_of_mem n hq, hkm⟩]
      · rw [if_neg (show ¬ (q ∈ rest ∧ keyMem s.vertex_connections q = true) from
            fun hc => hkm hc.2),
          if_neg (show ¬ (q ∈ n :: rest ∧ keyMem s.vertex_connections q = true) from
            fun hc => hkm hc.2)]
    · rw [if_neg (show ¬ (q ∈ rest ∧ keyMem s.vertex_connections q = true) from
          fun hc => hq hc.1),
        remove_vertex_step_vc]
      by_cases hqn : q = n
      · subst hqn
        by_cases hkm : keyMem s.vertex_connections q = true
        · rw [if_pos ⟨rfl, hkm⟩, if_pos ⟨List.mem_cons_self q rest, hkm⟩]
        · rw [if_neg (show ¬ (q = q ∧ keyMem s.vertex_connections q = true) from
              fun hc => hkm hc.2),
            if_neg (show ¬ (q ∈ q :: rest ∧ keyMem s.vertex_connections q = true) from
              fun hc => hkm hc.2)]
      · rw [if_neg (show ¬ (q = n ∧ keyMem s.vertex_connections n = true) from
            fun hc => hqn hc.1),
          if_neg]
        rintro ⟨hmem, _⟩
        rcases List.mem_cons.mp hmem with h | h
        exacts [hqn h, hq h]

/-- C5: with `force = false`, `remove_vertex` is a no-op unless
`can_remove_vertex` holds, and whenever it does remove the vertex every
former neighbor retains valence at least 3 in the resulting state. -/
theorem remove_vertex_sound (s : State V) (v : V) (hwf : WFvc s) :
    (can_remove_vertex s v = false → remove_vertex s v false = s) ∧
    (can_remove_vertex s v = true →
      keyMem (remove_vertex s v false).vertex_connections v = false ∧
      ∀ n ∈ (dget? s.vertex_connections v).getD [],
        3 ≤ get_valence (remove_vertex s v false) n) := by
  constructor
  · intro h
    unfold remove_vertex
    rw [if_pos ⟨h, rfl⟩]
  · intro h
    have hkm : keyMem s.vertex_connections v = true := by
      unfold can_remove_vertex at h
      by_cases hk : keyMem s.vertex_connections v = true
      · exact hk
      · rw [if_pos (by simpa using hk)] at h
        exact absurd h (by simp)
    have hall : ((dget? s.vertex_connections v).getD []).all
        (fun neighbor => 3 < ((dget? s.vertex_connections neighbor).getD []).length)
        = true := by
      unfold can_remove_vertex at h
      rwa [if_neg (by simpa using hkm)] at h
    obtain ⟨nbrs, hnbrs⟩ := Option.isSome_iff_exists.mp
      ((keyMem_iff_dget? _ _).mp hkm)
    have hmem : (v, nbrs) ∈ s.vertex_connections := dget?_eq_some_mem _ _ _ hnbrs
    obtain ⟨hnd, hself, hclosed⟩ := hwf (v, nbrs) hmem
    have hgetd : (dget? s.vertex_connections v).getD [] = nbrs := by rw [hnbrs]; rfl
    have hres_vc : (remove_vertex s v false).vertex_connections
        = ddel ((((dget? s.vertex_connections v).getD []).foldl
            (remove_vertex_step v) s)).vertex_connections v := by
      unfold remove_vertex
      rw [if_neg (fun hc => by rw [h] at hc; exact absurd hc.1 (by simp)),
        if_neg (by simpa using hkm)]
    rw [hgetd] at hres_vc
    constructor
    · rw [keyMem_eq_isSome, hres_vc, dget?_ddel, if_pos rfl]
      rfl
    · intro n hn
      rw [hgetd] at hn
      have hnv : ¬ n = v := fun hc => hself (hc ▸ hn)
      have hkmn : keyMem s.vertex_connections n = true := hclosed n hn
      have hlong : 3 < ((dget? s.vertex_connections n).getD []).length := by
        have := List.all_eq_true.mp hall n (by rw [hgetd]; exact hn)
        exact of_decide_eq_true this
      have hndn : ((dget? s.vertex_connections n).getD []).Nodup := by
        obtain ⟨ln, hln⟩ := Option.isSome_iff_exists.mp ((keyMem_iff_dget? _ _).mp hkmn)
        have hmn : (n, ln) ∈ s.vertex_connections := dget?_eq_some_mem _ _ _ hln
        have := (hwf (n, ln) hmn).1
        rw [hln]
        exact this
      unfold get_valence
      rw [hres_vc, dget?_ddel, if_neg hnv, remove_vertex_fold_vc v nbrs hnd s n,
        if_pos ⟨hn, hkmn⟩]
      have := sdiscard_length_ge ((dget? s.vertex_connections n).getD []) v hndn
      simp only [Option.getD_some]
      omega

/-- Witness for C5: removing vertex `0` from `removable_witness_state`
succeeds and leaves every former neighbor with valence at least 3. -/
theorem remove_vertex_sound_witness :
    WFvc removable_witness_state ∧
    can_remove_vertex removable_witness_state 0 = true ∧
    (keyMem (remove_vertex removable_witness_state 0 false).vertex_connections 0 = false ∧
     ∀ n ∈ (dget? removable_witness_state.vertex_connections 0).getD [],
       3 ≤ get_valence (remove_vertex removable_witness_state 0 false) n) :=
  ⟨by decide, by decide,
    (remove_vertex_sound removable_witness_state 0 (by decide)).2 (by decide)⟩

/-! ## C8 — which output gates the engine enqueues -/

theorem enumFrom_filter_ne_last {A : Type} (n : Nat) (l : List A) :
    (((l.enumFrom n).filter (fun p => ¬ (p.1 = n + l.length - 1))).map (·.2))
      = l.dropLast := by
  induction l generalizing n with
  | nil => rfl
  | cons x t ih =>
    rcases t with _ | ⟨y, t'⟩
    · simp
    · have hcond : (decide (¬ (n = n + (x :: y :: t').length - 1))) = true := by
        apply decide_eq_true
        simp only [List.length_cons]
        omega
      rw [List.enumFrom_cons, List.filter_cons, hcond, if_pos rfl, List.map_cons]
      simp only [show n + (x :: y :: t').length - 1 = (n + 1) + (y :: t').length - 1 from by
        simp only [List.length_cons]
        omega]
      rw [ih (n + 1)]
      rfl

/-- The engine enqueues every output gate except the final one. -/
theorem compress_enqueued_gates_eq_dropLast {V : Type} (out : List (Gate V)) :
    compress_enqueued_gates out = out.dropLast := by
  unfold compress_enqueued_gates
  have := enumFrom_filter_ne_last 0 out
  simpa [List.enum] using this

/-- C8 counterexample: on a clean valence-4 patch `Patch.output_gates`
returns the `v - 1 = 3` gates with the entry gate already excluded, but the
enqueue loop of the engine (`if gate != out_gates[-1]`) appends only the first
two — not the full `v - 1` gates the claim asserts. -/
theorem compress_enqueue_counterexample :
    output_gates ring_state ring_patch (1, 2)
      = [⟨(3, 2), 6⟩, ⟨(4, 3), 7⟩, ⟨(1, 4), 8⟩] ∧
    compress_enqueued_gates (output_gates ring_state ring_patch (1, 2))
      = [⟨(3, 2), 6⟩, ⟨(4, 3), 7⟩] ∧
    ¬ compress_enqueued_gates (output_gates ring_state ring_patch (1, 2))
        = output_gates ring_state ring_patch (1, 2) := by
  decide

/-- C8 amended: the engine enqueues exactly the output gates minus the last
one; on the concrete clean valence-4 patch `output_gates` yields `v - 1 = 3`
gates, of which `v - 2 = 2` are enqueued. -/
theorem compress_enqueues_dropLast_of_output_gates {V : Type} [DecidableEq V] [Inhabited V]
    (s : State V) (p : Patch V) (starting_edge : V × V) :
    compress_enqueued_gates (output_gates s p starting_edge)
        = (output_gates s p starting_edge).dropLast ∧
    (output_gates ring_state ring_patch (1, 2)).length = 3 ∧
    (compress_enqueued_gates (output_gates ring_state ring_patch (1, 2))).length = 2 :=
  ⟨compress_enqueued_gates_eq_dropLast _, by decide, by decide⟩

/-! ## C6 — orientation symmetry -/

theorem pair_swap_ne {A : Type} {a b x y : A} (h : ¬ (a, b) = (x, y)) :
    ¬ (b, a) = (y, x) := by
  intro hc
  rw [Prod.ext_iff] at hc
  exact h (Prod.ext_iff.mpr ⟨hc.2, hc.1⟩)

theorem sym_getD_fst {ors : List ((Option V × Option V) × (Option V × Option V))}
    (h : OrientationSym ors) (x y : Option V) :
    ((dget? ors (x, y)).getD (none, none)).1
      = ((dget? ors (y, x)).getD (none, none)).2 := by
  rw [h x y]
  cases dget? ors (y, x) <;> rfl

theorem sym_getD_snd {ors : List ((Option V × Option V) × (Option V × Option V))}
    (h : OrientationSym ors) (x y : Option V) :
    ((dget? ors (x, y)).getD (none, none)).2
      = ((dget? ors (y, x)).getD (none, none)).1 := by
  rw [h x y]
  cases dget? ors (y, x) <;> rfl

theorem sym_ddel_pair (ors : List ((Option V × Option V) × (Option V × Option V)))
    (x y : Option V) (h : OrientationSym ors) :
    OrientationSym (ddel (ddel ors (x, y)) (y, x)) := by
  intro a b
  rw [dget?_ddel, dget?_ddel, dget?_ddel, dget?_ddel]
  by_cases h1 : ((a : Option V), (b : Option V)) = (y, x)
  · rw [if_pos h1]
    have h2 : ((b : Option V), (a : Option V)) = (x, y) := by
      rw [Prod.ext_iff] at h1 ⊢
      exact ⟨h1.2, h1.1⟩
    by_cases h3 : ((b : Option V), (a : Option V)) = (y, x)
    · rw [if_pos h3]
      rfl
    · rw [if_neg h3, if_pos h2]
      rfl
  · rw [if_neg h1]
    by_cases h2 : ((a : Option V), (b : Option V)) = (x, y)
    · rw [if_pos h2]
      have h3 : ((b : Option V), (a : Option V)) = (y, x) := by
        rw [Prod.ext_iff] at h2 ⊢
        exact ⟨h2.2, h2.1⟩
      rw [if_pos h3]
      rfl
    · rw [if_neg h2, if_neg (pair_swap_ne h2), if_neg (pair_swap_ne h1)]
      exact h a b

theorem add_edge_orientations (s : State V) (x y : V) :
    (add_edge s x y).2.orientations = s.orientations := by
  unfold add_edge
  split <;> rfl

theorem foldl_add_edge_orientations (v : V) (cs : List V) (st : State V) :
    (cs.foldl (fun st conn => (add_edge st v conn).2) st).orientations = st.orientations := by
  induction cs generalizing st with
  | nil => rfl
  | cons c rest ih => rw [List.foldl_cons, ih, add_edge_orientations]

theorem add_vertex_orientations (s : State V) (v : V) (cs : List V) :
    (add_vertex s v cs).orientations = s.orientations := by
  unfold add_vertex
  split
  · rfl
  · rw [foldl_add_edge_orientations]

theorem remove_vertex_step_sym (v n : V) (st : State V)
    (h : OrientationSym st.orientations) :
    OrientationSym (remove_vertex_step v st n).orientations := by
  intro a b
  rw [remove_vertex_step_orientations, remove_vertex_step_orientations]
  by_cases h1 : ((a : Option V), (b : Option V)) = (some v, some n)
      ∨ ((a : Option V), (b : Option V)) = (some n, some v)
  · rw [if_pos h1, if_pos ?side]
    · rfl
    case side =>
      rcases h1 with h1 | h1 <;> rw [Prod.ext_iff] at h1
      · exact Or.inr (Prod.ext_iff.mpr ⟨h1.2, h1.1⟩)
      · exact Or.inl (Prod.ext_iff.mpr ⟨h1.2, h1.1⟩)
  · rw [if_neg h1, if_neg ?side2]
    · exact h a b
    case side2 =>
      rintro (hc | hc) <;> rw [Prod.ext_iff] at hc
      · exact h1 (Or.inr (Prod.ext_iff.mpr ⟨hc.2, hc.1⟩))
      · exact h1 (Or.inl (Prod.ext_iff.mpr ⟨hc.2, hc.1⟩))

theorem remove_vertex_fold_sym (v : V) (l : List V) (s : State V)
    (h : OrientationSym s.orientations) :
    OrientationSym ((l.foldl (remove_vertex_step v) s)).orientations := by
  induction l generalizing s with
  | nil => exact h
  | cons n rest ih => exact ih _ (remove_vertex_step_sym v n s h)

theorem remove_vertex_sym (s : State V) (v : V) (force : Bool)
    (h : OrientationSym s.orientations) :
    OrientationSym (remove_vertex s v force).orientations := by
  unfold remove_vertex
  split
  · exact h
  · split
    · exact h
    · exact remove_vertex_fold_sym v _ s h

theorem remove_edge_sym (s : State V) (x y : V) (force : Bool)
    (h : OrientationSym s.orientations) :
    OrientationSym (remove_edge s x y force).orientations := by
  unfold remove_edge
  split
  · exact h
  · exact sym_ddel_pair s.orientations (some x) (some y) h

theorem dget?_dset_ne {K A : Type} [DecidableEq K] (d : List (K × A)) (k q : K) (a : A)
    (h : ¬ q = k) : dget? (dset d k a) q = dget? d q := by
  rw [dget?_dset, if_neg h]

set_option maxHeartbeats 1600000 in
/-- Preservation of orientation symmetry by `set_orientation` on an edge
with a full apex pair, when the four vertices involved are pairwise
distinct (as they are for the two faces adjacent to an edge of a manifold
mesh). -/
theorem set_orientation_sym (s : State V) (f t l r : V)
    (hft : f ≠ t) (hfl : f ≠ l) (hfr : f ≠ r) (htl : t ≠ l) (htr : t ≠ r) (hlr : l ≠ r)
    (h : OrientationSym s.orientations) :
    OrientationSym (set_orientation s (f, t) (some l, some r)).2.orientations := by
  have htf := Ne.symm hft
  have hlf := Ne.symm hfl
  have hrf := Ne.symm hfr
  have hlt := Ne.symm htl
  have hrt := Ne.symm htr
  have hrl := Ne.symm hlr
  intro a b
  simp only [set_orientation]
  split
  · exact h a b
  · by_cases e1 : ((a : Option V), (b : Option V)) = (some r, some f)
    · rw [Prod.ext_iff] at e1
      obtain ⟨ha, hb⟩ := e1
      subst ha hb
      simp [dget?_dset, hft, htf, hfl, hlf, hfr, hrf, htl, hlt, htr, hrt, hlr, hrl]
      exact sym_getD_fst h (some r) (some f)
    by_cases e2 : ((a : Option V), (b : Option V)) = (some t, some r)
    · rw [Prod.ext_iff] at e2
      obtain ⟨ha, hb⟩ := e2
      subst ha hb
      simp [dget?_dset, hft, htf, hfl, hlf, hfr, hrf, htl, hlt, htr, hrt, hlr, hrl]
      exact sym_getD_fst h (some t) (some r)
    by_cases e3 : ((a : Option V), (b : Option V)) = (some f, some l)
    · rw [Prod.ext_iff] at e3
      obtain ⟨ha, hb⟩ := e3
      subst ha hb
      simp [dget?_dset, hft, htf, hfl, hlf, hfr, hrf, htl, hlt, htr, hrt, hlr, hrl]
      exact sym_getD_fst h (some f) (some l)
    by_cases e4 : ((a : Option V), (b : Option V)) = (some l, some t)
    · rw [Prod.ext_iff] at e4
      obtain ⟨ha, hb⟩ := e4
      subst ha hb
      simp [dget?_dset, hft, htf, hfl, hlf, hfr, hrf, htl, hlt, htr, hrt, hlr, hrl]
      exact sym_getD_fst h (some l) (some t)
    by_cases e5 : ((a : Option V), (b : Option V)) = (some f, some r)
    · rw [Prod.ext_iff] at e5
      obtain ⟨ha, hb⟩ := e5
      subst ha hb
      simp [dget?_dset, hft, htf, hfl, hlf, hfr, hrf, htl, hlt, htr, hrt, hlr, hrl]
      exact sym_getD_snd h (some f) (some r)
    by_cases e6 : ((a : Option V), (b : Option V)) = (some r, some t)
    · rw [Prod.ext_iff] at e6
      obtain ⟨ha, hb⟩ := e6
      subst ha hb
      simp [dget?_dset, hft, htf, hfl, hlf, hfr, hrf, htl, hlt, htr, hrt, hlr, hrl]
      exact sym_getD_snd h (some r) (some t)
    by_cases e7 : ((a : Option V), (b : Option V)) = (some l, some f)
    · rw [Prod.ext_iff] at e7
      obtain ⟨ha, hb⟩ := e7
      subst ha hb
      simp [dget?_dset, hft, htf, hfl, hlf, hfr, hrf, htl, hlt, htr, hrt, hlr, hrl]
      exact sym_getD_snd h (some l) (some f)
    by_cases e8 : ((a : Option V), (b : Option V)) = (some t, some l)
    · rw [Prod.ext_iff] at e8
      obtain ⟨ha, hb⟩ := e8
      subst ha hb
      simp [dget?_dset, hft, htf, hfl, hlf, hfr, hrf, htl, hlt, htr, hrt, hlr, hrl]
      exact sym_getD_snd h (some t) (some l)
    by_cases e9 : ((a : Option V), (b : Option V)) = (some t, some f)
    · rw [Prod.ext_iff] at e9
      obtain ⟨ha, hb⟩ := e9
      subst ha hb
      simp [dget?_dset, hft, htf, hfl, hlf, hfr, hrf, htl, hlt, htr, hrt, hlr, hrl]
    by_cases e10 : ((a : Option V), (b : Option V)) = (some f, some t)
    · rw [Prod.ext_iff] at e10
      obtain ⟨ha, hb⟩ := e10
      subst ha hb
      simp [dget?_dset, hft, htf, hfl, hlf, hfr, hrf, htl, hlt, htr, hrt, hlr, hrl]
    · have g1 := pair_swap_ne e5
      have g2 := pair_swap_ne e6
      have g3 := pair_swap_ne e7
      have g4 := pair_swap_ne e8
      have g5 := pair_swap_ne e1
      have g6 := pair_swap_ne e2
      have g7 := pair_swap_ne e3
      have g8 := pair_swap_ne e4
      have g9 := pair_swap_ne e10
      have g10 := pair_swap_ne e9
      simp [dget?_dset_ne, e1, e2, e3, e4, e5, e6, e7, e8, e9, e10,
        g1, g2, g3, g4, g5, g6, g7, g8, g9, g10,
        hft, htf, hfl, hlf, hfr, hrf, htl, hlt, htr, hrt, hlr, hrl]
      exact h a b

/-- C6 counterexample: the claim asserts symmetry is preserved by *every*
`set_orientation` call with an apex pair; calling it on the edge `(0, 0)`
leaves the entry keyed `(0, 0)` holding `(2, 1)`, which is not its own swap,
so the reachable state violates the invariant. -/
theorem set_orientation_symmetry_counterexample :
    dget? degenerate_call_state.orientations (some 0, some 0) = some (some 2, some 1) ∧
    ¬ OrientationSym degenerate_call_state.orientations := by
  refine ⟨by decide, fun h => ?_⟩
  have h00 := h (some 0) (some 0)
  rw [show dget? degenerate_call_state.orientations (some 0, some 0)
      = some (some 2, some 1) from by decide] at h00
  simp [Prod.swap] at h00

/-- C6 amended: orientation symmetry is preserved by `add_vertex`,
`add_edge`, `remove_vertex` and `remove_edge` unconditionally, and by
`set_orientation` with a full apex pair whenever the edge endpoints and the
two apexes are four pairwise-distinct vertices (the configuration of the two
faces adjacent to an edge of a manifold mesh); the degenerate equal-endpoint
call of the counterexample is the case the claim must exclude. -/
theorem mesh_ops_preserve_orientation_symmetry (s : State V)
    (h : OrientationSym s.orientations) :
    (∀ (v : V) (connected_to : List V),
        OrientationSym (add_vertex s v connected_to).orientations) ∧
    (∀ x y : V, OrientationSym (add_edge s x y).2.orientations) ∧
    (∀ (v : V) (force : Bool), OrientationSym (remove_vertex s v force).orientations) ∧
    (∀ (x y : V) (force : Bool), OrientationSym (remove_edge s x y force).orientations) ∧
    (∀ f t l r : V, f ≠ t → f ≠ l → f ≠ r → t ≠ l → t ≠ r → l ≠ r →
        OrientationSym (set_orientation s (f, t) (some l, some r)).2.orientations) := by
  refine ⟨?_, ?_, ?_, ?_, ?_⟩
  · intro v cs a b
    rw [add_vertex_orientations]
    exact h a b
  · intro x y a b
    rw [add_edge_orientations]
    exact h a b
  · intro v force
    exact remove_vertex_sym s v force h
  · intro x y force
    exact remove_edge_sym s x y force h
  · intro f t l r hft hfl hfr htl htr hlr
    exact set_orientation_sym s f t l r hft hfl hfr htl htr hlr h

/-- Witness for the amended C6 at a concrete input: a proper
`set_orientation` call on edge `(0, 1)` with distinct apexes `2`, `3`
preserves symmetry. -/
theorem mesh_ops_preserve_orientation_symmetry_witness :
    OrientationSym (sym_witness_state : State Nat).orientations ∧
    ((0 : Nat) ≠ 1) ∧
    OrientationSym (set_orientation sym_witness_state (0, 1) (some 2, some 3)).2.orientations :=
  ⟨fun _ _ => rfl, by decide,
    (mesh_ops_preserve_orientation_symmetry sym_witness_state (fun _ _ => rfl)).2.2.2.2
      0 1 2 3 (by decide) (by decide) (by decide) (by decide) (by decide) (by decide)⟩

end PCLTTM
